import Mathlib

/-!
# Verification of the FIGARO mixture-engine specification

Shallow embedding of the FIGARO density-reconstruction engine
(DPGMM/HDPGMM, probit coordinate transform, incremental sufficient
statistics, concentration sampler, mixture builder) and proofs of the
behavioural claims stated about it.

The Python modules `figaro/mixture.py`, `figaro/transform.py` and
`figaro/utils.py` are exercised by the repository's test notebooks but the
modules themselves are not part of the source tree available here; the
definitions below are therefore modelled from the specification (and from
the behaviour documented in the test notebooks), as indicated in each
doc comment.  Floating-point arrays are modelled as real-valued vectors;
the IEEE special values (`NaN`, `±inf`) that the probit transform relies
on are modelled explicitly by the type `FP` below.
-/

open scoped BigOperators

namespace Figaro

/-! ## Sufficient-statistics tracker (spec section 4.2)

Incremental (Welford-style) mean and scatter-matrix update for the points
assigned to one cluster, combined with the Normal-Inverse-Wishart
conjugate update. -/

/-- Modelled from the spec: `compute_component_suffstats` of
`figaro/mixture.py` (not in the source tree; its test notebook is
`src/notebooks/tests/mixture.ipynb`).  Given the running mean and scatter
matrix over `N` points of a cluster and a new point `x`, returns the
updated running mean, updated scatter matrix, new count `N + 1`, and the
NIW-posterior mean and expected covariance:
`m_i = m_{i-1} + (x_i - m_{i-1})/i`,
`S_i = S_{i-1} + (x_i - m_{i-1})^t (x_i - m_i)`,
`mu_n = (k_0 mu_0 + n m_n)/(k_0 + n)`,
`L_n = L_0 + S_n + (k_0 n)/(k_0 + n) (m_n - mu_0)(m_n - mu_0)^t`. -/
noncomputable def compute_component_suffstats (d : ℕ) (x mean : Fin d → ℝ)
    (S : Matrix (Fin d) (Fin d) ℝ) (N : ℕ) (p_mu : Fin d → ℝ) (p_k : ℝ) (p_nu : ℤ)
    (p_L : Matrix (Fin d) (Fin d) ℝ) :
    (Fin d → ℝ) × Matrix (Fin d) (Fin d) ℝ × ℕ × (Fin d → ℝ) × Matrix (Fin d) (Fin d) ℝ :=
  let newN : ℕ := N + 1
  let newMean : Fin d → ℝ := fun i => mean i + (x i - mean i) / (newN : ℝ)
  let newS : Matrix (Fin d) (Fin d) ℝ :=
    Matrix.of fun i j => S i j + (x i - mean i) * (x j - newMean j)
  let k_n : ℝ := p_k + (newN : ℝ)
  let mu_n : Fin d → ℝ := fun i => (p_k * p_mu i + (newN : ℝ) * newMean i) / k_n
  let nu_n : ℤ := p_nu + (newN : ℤ)
  let L_n : Matrix (Fin d) (Fin d) ℝ :=
    Matrix.of fun i j => p_L i j + newS i j
      + (p_k * (newN : ℝ) / (p_k + (newN : ℝ))) * (newMean i - p_mu i) * (newMean j - p_mu j)
  let sigma_n : Matrix (Fin d) (Fin d) ℝ :=
    Matrix.of fun i j => L_n i j / ((nu_n : ℝ) - (d : ℝ) - 1)
  (newMean, newS, newN, mu_n, sigma_n)

/-- Running sufficient statistics (mean, scatter matrix) of the first `n`
points of the stream `x`, obtained by iterating
`compute_component_suffstats` starting from the empty statistics. -/
noncomputable def suffstatsIter (d : ℕ) (x : ℕ → Fin d → ℝ) (p_mu : Fin d → ℝ) (p_k : ℝ)
    (p_nu : ℤ) (p_L : Matrix (Fin d) (Fin d) ℝ) :
    ℕ → (Fin d → ℝ) × Matrix (Fin d) (Fin d) ℝ
  | 0 => (fun _ => 0, 0)
  | n + 1 =>
      let prev := suffstatsIter d x p_mu p_k p_nu p_L n
      let r := compute_component_suffstats d (x n) prev.1 prev.2 n p_mu p_k p_nu p_L
      (r.1, r.2.1)

/-- Batch mean of the first `n` points of the stream `x`, recomputed from
scratch. -/
noncomputable def batchMean (d : ℕ) (x : ℕ → Fin d → ℝ) (n : ℕ) : Fin d → ℝ :=
  fun i => (∑ k ∈ Finset.range n, x k i) / (n : ℝ)

/-- Batch scatter matrix (sum of centred outer products) of the first `n`
points of the stream `x`, recomputed from scratch. -/
noncomputable def batchScatter (d : ℕ) (x : ℕ → Fin d → ℝ) (n : ℕ) :
    Matrix (Fin d) (Fin d) ℝ :=
  Matrix.of fun i j =>
    ∑ k ∈ Finset.range n, (x k i - batchMean d x n i) * (x k j - batchMean d x n j)

/-! ## IEEE special values and the probit coordinate transform
(spec sections 4.1 and 7)

`figaro/transform.py` is not in the source tree (its test notebook is
`src/unnamed/part_001`).  The transform relies essentially on the IEEE
special values: the bound itself maps to `±inf` and out-of-bounds inputs
map to `NaN` (silently, never raising).  `FP` models a floating-point
scalar as either a finite real or one of those special values. -/

/-- A floating-point value: `NaN`, `-inf`, `+inf` or a finite real. -/
inductive FP where
  | nan : FP
  | ninf : FP
  | pinf : FP
  | fin : ℝ → FP

/-- Modelled from the spec: the standard normal CDF `Phi` used by
`transform.py`, abstracted by the interface the spec relies on — a
function `ℝ → (0,1)` with a two-sided inverse on `(0,1)`, strictly
monotone per dimension.  Any such kernel (in particular the normal CDF)
satisfies this interface; theorems about the transform are proved for
every kernel. -/
structure ProbitKernel where
  Phi : ℝ → ℝ
  PhiInv : ℝ → ℝ
  strictMono_Phi : StrictMono Phi
  phi_mem_Ioo : ∀ y, Phi y ∈ Set.Ioo (0 : ℝ) 1
  phiInv_phi : ∀ y, PhiInv (Phi y) = y
  phi_phiInv : ∀ p, p ∈ Set.Ioo (0 : ℝ) 1 → Phi (PhiInv p) = p

/-- Modelled from the spec: the inverse normal CDF as evaluated by the
floating-point library (`scipy.special.ndtri`): `NaN` outside `[0,1]`,
`-inf` at `0`, `+inf` at `1`, finite inside `(0,1)`. -/
noncomputable def ndtriFP (P : ProbitKernel) (p : ℝ) : FP :=
  if p < 0 ∨ 1 < p then FP.nan
  else if p = 0 then FP.ninf
  else if p = 1 then FP.pinf
  else FP.fin (P.PhiInv p)

/-- Modelled from the spec: one coordinate of `transform_to_probit`,
`y = PhiInv((x - min)/(max - min))` with IEEE special values. -/
noncomputable def probitCoord (P : ProbitKernel) (lo hi x : ℝ) : FP :=
  ndtriFP P ((x - lo) / (hi - lo))

/-- Modelled from the spec: `transform_to_probit` of `figaro/transform.py`
(not in the source tree), applied independently on every dimension. -/
noncomputable def transform_to_probit (P : ProbitKernel) (d : ℕ)
    (bounds : Fin d → ℝ × ℝ) (x : Fin d → ℝ) : Fin d → FP :=
  fun i => probitCoord P (bounds i).1 (bounds i).2 (x i)

/-- The normal CDF as evaluated by the floating-point library:
`Phi(-inf) = 0`, `Phi(+inf) = 1`, `NaN` propagates. -/
noncomputable def ndtrFP (P : ProbitKernel) : FP → FP
  | FP.nan => FP.nan
  | FP.ninf => FP.fin 0
  | FP.pinf => FP.fin 1
  | FP.fin y => FP.fin (P.Phi y)

/-- Modelled from the spec: one coordinate of `transform_from_probit`,
`x = min + (max - min) * Phi(y)` with IEEE special values; `±inf`
round-trips to the exact bound. -/
noncomputable def antiprobitCoord (P : ProbitKernel) (lo hi : ℝ) (v : FP) : FP :=
  match ndtrFP P v with
  | FP.fin c => FP.fin (lo + (hi - lo) * c)
  | w => w

/-- Modelled from the spec: `transform_from_probit` of
`figaro/transform.py` (not in the source tree), applied independently on
every dimension. -/
noncomputable def transform_from_probit (P : ProbitKernel) (d : ℕ)
    (bounds : Fin d → ℝ × ℝ) (y : Fin d → FP) : Fin d → FP :=
  fun i => antiprobitCoord P (bounds i).1 (bounds i).2 (y i)

/-- The logistic CDF `y ↦ 1/(1 + exp(-y))` together with the logit
function as its inverse: a concrete instance of `ProbitKernel`. -/
noncomputable def logisticKernel : ProbitKernel where
  Phi := fun y => 1 / (1 + Real.exp (-y))
  PhiInv := fun p => Real.log (p / (1 - p))
  strictMono_Phi := by
    intro a b hab
    have hb' : 0 < 1 + Real.exp (-b) := by positivity
    have hlt : Real.exp (-b) < Real.exp (-a) := Real.exp_lt_exp.mpr (by linarith)
    have hsum : 1 + Real.exp (-b) < 1 + Real.exp (-a) := by linarith
    exact one_div_lt_one_div_of_lt hb' hsum
  phi_mem_Ioo := by
    intro y
    have h : 0 < 1 + Real.exp (-y) := by positivity
    refine ⟨by positivity, ?_⟩
    rw [div_lt_one h]
    have := Real.exp_pos (-y)
    linarith
  phiInv_phi := by
    intro y
    have hz0 : 0 < Real.exp y := Real.exp_pos y
    have key : (1 : ℝ) / (1 + Real.exp (-y)) / (1 - 1 / (1 + Real.exp (-y))) = Real.exp y := by
      rw [Real.exp_neg]
      have h1 : 0 < (Real.exp y)⁻¹ := by positivity
      have h2 : (1 : ℝ) + (Real.exp y)⁻¹ ≠ 0 := by positivity
      field_simp
      try ring
    simp only [key, Real.log_exp]
  phi_phiInv := by
    intro p hp
    obtain ⟨hp0, hp1⟩ := hp
    have h1p : 0 < 1 - p := by linarith
    have hratio : 0 < p / (1 - p) := by positivity
    have hexp : Real.exp (-(Real.log (p / (1 - p)))) = (1 - p) / p := by
      rw [Real.exp_neg, Real.exp_log hratio]
      rw [inv_div]
    simp only [hexp]
    have hp0' : p ≠ 0 := ne_of_gt hp0
    have hden : 1 + (1 - p) / p = 1 / p := by
      field_simp
    rw [hden, one_div_one_div]

/-! ## Mixture engine (spec sections 4.3 - 4.6)

Modelled from the spec: the classes `DPGMM`/`HDPGMM` of
`figaro/mixture.py` are not in the source tree (their callers are the
notebooks `src/unnamed/part_000` and `src/notebooks/tests/mixture.ipynb`).
Randomness is made explicit: the categorical draw and the
Metropolis-Hastings proposal/uniform draws are arguments. -/

/-- A cluster: stable identity by position, running count `n`, running
mean and scatter matrix in probit space. -/
structure Cluster (d : ℕ) where
  n : ℕ
  mean : Fin d → ℝ
  scatter : Matrix (Fin d) (Fin d) ℝ

/-- NIW prior hyperparameters, in the order `(k, L, nu, mu)` used by the
engine. -/
structure PriorPars (d : ℕ) where
  k : ℝ
  L : Matrix (Fin d) (Fin d) ℝ
  nu : ℤ
  mu : Fin d → ℝ

/-- The mutable mixture state: bounds, prior hyperparameters, active
clusters, total count, concentration parameter and its initial value. -/
structure MixtureState (d : ℕ) where
  bounds : Fin d → ℝ × ℝ
  prior : PriorPars d
  clusters : List (Cluster d)
  n_pts : ℕ
  alpha : ℝ
  alpha0 : ℝ

/-- Error kinds of the engine (spec section 7). -/
inductive FigaroError where
  | invalidBounds : FigaroError
  | dimensionMismatch : FigaroError
  | invalidPrior : FigaroError
  | useAfterInvalidate : FigaroError
  | unsupportedOperation : FigaroError
deriving DecidableEq

/-- Modelled from the spec: log-density of the multivariate Student-t
distribution used as the predictive likelihood (G. Gundersen's
formulation, `_student_t` in `figaro/mixture.py`, not in the source
tree). -/
noncomputable def logStudentT (d : ℕ) (df : ℝ) (mu : Fin d → ℝ)
    (sigma : Matrix (Fin d) (Fin d) ℝ) (y : Fin d → ℝ) : ℝ :=
  Real.log (Real.Gamma ((df + d) / 2)) - Real.log (Real.Gamma (df / 2))
    - ((d : ℝ) / 2) * Real.log (df * Real.pi) - Real.log sigma.det / 2
    - ((df + (d : ℝ)) / 2) *
        Real.log (1 + Matrix.dotProduct (fun i => y i - mu i)
          (sigma⁻¹.mulVec fun i => y i - mu i) / df)

/-- NIW posterior-predictive parameters `(df, loc, scale)` of a cluster:
`df = nu_n - d + 1`, `loc = mu_n`, `scale = L_n (k_n + 1)/(k_n df)`
(spec section 4.3, step 1). -/
noncomputable def clusterPosteriorParams (d : ℕ) (p : PriorPars d) (c : Cluster d) :
    ℝ × (Fin d → ℝ) × Matrix (Fin d) (Fin d) ℝ :=
  let n : ℝ := (c.n : ℝ)
  let k_n : ℝ := p.k + n
  let nu_n : ℝ := (p.nu : ℝ) + n
  let mu_n : Fin d → ℝ := fun i => (p.k * p.mu i + n * c.mean i) / k_n
  let L_n : Matrix (Fin d) (Fin d) ℝ := Matrix.of fun i j =>
    p.L i j + c.scatter i j + (p.k * n / (p.k + n)) * (c.mean i - p.mu i) * (c.mean j - p.mu j)
  let df : ℝ := nu_n - (d : ℝ) + 1
  (df, mu_n, Matrix.of fun i j => L_n i j * (k_n + 1) / (k_n * df))

/-- Log scores of the `K + 1` assignment options for a probit-space point
`y`: `log(n_k) + log t(y)` for each active cluster and
`log(alpha) + log t0(y)` for a new cluster (spec section 4.3). -/
noncomputable def assignmentLogScores (d : ℕ) (s : MixtureState d) (y : Fin d → ℝ) :
    List ℝ :=
  (s.clusters.map fun c =>
    let p := clusterPosteriorParams d s.prior c
    Real.log (c.n : ℝ) + logStudentT d p.1 p.2.1 p.2.2 y)
  ++ [Real.log s.alpha +
        logStudentT d ((s.prior.nu : ℝ) - (d : ℝ) + 1) s.prior.mu
          (Matrix.of fun i j =>
            s.prior.L i j * (s.prior.k + 1) / (s.prior.k * ((s.prior.nu : ℝ) - (d : ℝ) + 1))) y]

/-- Inverse-CDF draw from an unnormalised weight list: the first index
whose weight bucket contains the threshold, the last index being the
catch-all (one categorical outcome per call). -/
noncomputable def categoricalPick (w : List ℝ) (t : ℝ) : ℕ :=
  match w with
  | [] => 0
  | [_] => 0
  | a :: rest => if t < a then 0 else categoricalPick rest (t - a) + 1

/-- The assignment choice for `y` at uniform draw `u`: index `< K` joins
that cluster, index `K` starts a new one. -/
noncomputable def assignChoice (d : ℕ) (s : MixtureState d) (y : Fin d → ℝ) (u : ℝ) : ℕ :=
  let w := (assignmentLogScores d s y).map Real.exp
  categoricalPick w (u * w.sum)

/-- Modelled from the spec: `add_new_point` of `figaro/mixture.py` (not in
the source tree), one forward CRP step for a probit-space point `y` with
explicit uniform draw `u`: sample the assignment, then either update the
chosen cluster's sufficient statistics or instantiate a cluster with
`n = 1` and statistics seeded from `y`. -/
noncomputable def add_new_point (d : ℕ) (s : MixtureState d) (y : Fin d → ℝ) (u : ℝ) :
    MixtureState d :=
  let idx := assignChoice d s y u
  if h : idx < s.clusters.length then
    let c := s.clusters.get ⟨idx, h⟩
    let r := compute_component_suffstats d y c.mean c.scatter c.n
      s.prior.mu s.prior.k s.prior.nu s.prior.L
    { s with clusters := s.clusters.set idx ⟨r.2.2.1, r.1, r.2.1⟩, n_pts := s.n_pts + 1 }
  else
    { s with clusters := s.clusters ++ [⟨1, y, 0⟩], n_pts := s.n_pts + 1 }

/-- One component of a realised mixture: weight, mean, covariance. -/
structure MixComponent (d : ℕ) where
  w : ℝ
  mean : Fin d → ℝ
  cov : Matrix (Fin d) (Fin d) ℝ

/-- An immutable realised mixture (a `Draw`): components plus the bounds
needed at evaluation time. -/
structure Draw (d : ℕ) where
  components : List (MixComponent d)
  bounds : Fin d → ℝ × ℝ

/-- Modelled from the spec: `build_mixture` of `figaro/mixture.py` (not in
the source tree) snapshots the current state into a `Draw`: each active
cluster contributes one component with weight `n_k / (N + alpha)` and its
NIW posterior mean and predictive covariance (spec section 4.5). -/
noncomputable def build_mixture (d : ℕ) (s : MixtureState d) : Draw d :=
  { components := s.clusters.map fun c =>
      let p := clusterPosteriorParams d s.prior c
      ⟨(c.n : ℝ) / ((s.n_pts : ℝ) + s.alpha), p.2.1, p.2.2⟩
    bounds := s.bounds }

/-- Modelled from the spec: `initialise` resets accumulation back to the
empty state, restoring the initial concentration parameter. -/
def initialise (d : ℕ) (s : MixtureState d) : MixtureState d :=
  { s with clusters := [], n_pts := 0, alpha := s.alpha0 }

/-- A mixture session: the state together with a validity flag; an
explicitly invalidated session must fail loudly (spec sections 4.5, 7). -/
structure Session (d : ℕ) where
  state : MixtureState d
  valid : Bool

/-- The operation `add_new_point` at the session level: fails on an invalidated holder,
otherwise performs the accumulation step. -/
noncomputable def Session.addPoint (d : ℕ) (se : Session d) (y : Fin d → ℝ) (u : ℝ) :
    Except FigaroError (Session d) :=
  if se.valid then Except.ok ⟨add_new_point d se.state y u, true⟩
  else Except.error FigaroError.useAfterInvalidate

/-- The operation `build_mixture` at the session level: fails on an invalidated holder,
otherwise snapshots the state. -/
noncomputable def Session.buildMixture (d : ℕ) (se : Session d) :
    Except FigaroError (Draw d) :=
  if se.valid then Except.ok (build_mixture d se.state)
  else Except.error FigaroError.useAfterInvalidate

/-- Modelled from the spec: the constructor
`new(bounds, prior_pars?, alpha0?)` (spec section 6): validates the
bounds, then the prior tuple `(k0, L0, nu0, mu0)`; fails with
`invalidPrior` if `nu0 <= D + 1` or `k0 <= 0`. -/
noncomputable def DPGMM_new (d : ℕ) (bounds : Fin d → ℝ × ℝ)
    (prior_pars : Option (ℝ × Matrix (Fin d) (Fin d) ℝ × ℤ × (Fin d → ℝ)))
    (alpha0 : ℝ) : Except FigaroError (MixtureState d) :=
  if ∃ i, (bounds i).2 ≤ (bounds i).1 then Except.error FigaroError.invalidBounds
  else
    match prior_pars with
    | some (k0, L0, nu0, mu0) =>
        if nu0 ≤ (d : ℤ) + 1 then Except.error FigaroError.invalidPrior
        else if k0 ≤ 0 then Except.error FigaroError.invalidPrior
        else Except.ok
          { bounds := bounds, prior := ⟨k0, L0, nu0, mu0⟩, clusters := [],
            n_pts := 0, alpha := alpha0, alpha0 := alpha0 }
    | none => Except.ok
        { bounds := bounds, prior := ⟨1 / 100, 1, (d : ℤ) + 2, fun _ => 0⟩, clusters := [],
          n_pts := 0, alpha := alpha0, alpha0 := alpha0 }

/-- Modelled from the spec: the unnormalised log full conditional of the
concentration parameter,
`p(alpha | K, n) = Gamma(alpha)/Gamma(n + alpha) * alpha^K * exp(-1/alpha)`
up to normalisation (spec section 4.4 and the `update_alpha` cell of
`src/notebooks/tests/mixture.ipynb`). -/
noncomputable def log_alpha_probability (K n : ℕ) (a : ℝ) : ℝ :=
  Real.log (Real.Gamma a) - Real.log (Real.Gamma ((n : ℝ) + a))
    + (K : ℝ) * Real.log a - 1 / a

/-- Modelled from the spec: `update_alpha` of `figaro/mixture.py` (not in
the source tree): a single Metropolis-Hastings step with explicit
symmetric proposal offset `prop` and uniform draw `u`; accept when the
proposal is positive and `log u` is below the log-ratio of the target at
the proposed versus the current value, otherwise keep the current
value. -/
noncomputable def update_alpha (a : ℝ) (n K : ℕ) (prop u : ℝ) : ℝ :=
  let a_new := a + prop
  if 0 < a_new ∧
      Real.log u < log_alpha_probability K n a_new - log_alpha_probability K n a
  then a_new else a

/-- A session operation: one accumulation step, or one (read-only)
snapshot. -/
inductive SessionOp (d : ℕ) where
  | addPoint : (Fin d → ℝ) → ℝ → SessionOp d
  | build : SessionOp d

/-- Run a list of session operations, collecting the produced draws. -/
noncomputable def runOps (d : ℕ) :
    MixtureState d → List (SessionOp d) → MixtureState d × List (Draw d)
  | s, [] => (s, [])
  | s, SessionOp.addPoint y u :: rest => runOps d (add_new_point d s y u) rest
  | s, SessionOp.build :: rest =>
      let r := runOps d s rest
      (r.1, build_mixture d s :: r.2)

/-- The accumulation payload of an operation: `some` for `addPoint`,
`none` for `build`. -/
def opPoint (d : ℕ) : SessionOp d → Option ((Fin d → ℝ) × ℝ)
  | SessionOp.addPoint y u => some (y, u)
  | SessionOp.build => none

/-! ## Floating-point level engine (spec section 7, silent NaN policy)

The same accumulation step, modelled at the level of IEEE values, to
express the deliberate silent-failure policy: an out-of-bounds sample is
transformed to `NaN`/`±inf` which then flows into the cluster statistics
without any error being raised.  The predictive-score computation is a
parameter: the policy holds whatever the numerics produce for the
scores. -/

/-- IEEE addition on `FP` (`NaN` propagates, `inf + (-inf) = NaN`). -/
def FP.add : FP → FP → FP
  | FP.nan, _ => FP.nan
  | _, FP.nan => FP.nan
  | FP.ninf, FP.pinf => FP.nan
  | FP.pinf, FP.ninf => FP.nan
  | FP.ninf, _ => FP.ninf
  | _, FP.ninf => FP.ninf
  | FP.pinf, _ => FP.pinf
  | _, FP.pinf => FP.pinf
  | FP.fin a, FP.fin b => FP.fin (a + b)

/-- IEEE negation on `FP`. -/
def FP.neg : FP → FP
  | FP.nan => FP.nan
  | FP.ninf => FP.pinf
  | FP.pinf => FP.ninf
  | FP.fin a => FP.fin (-a)

/-- IEEE subtraction on `FP`. -/
def FP.sub (a b : FP) : FP := FP.add a (FP.neg b)

/-- IEEE multiplication on `FP` (`0 * inf = NaN`). -/
noncomputable def FP.mul : FP → FP → FP
  | FP.nan, _ => FP.nan
  | _, FP.nan => FP.nan
  | FP.pinf, FP.pinf => FP.pinf
  | FP.pinf, FP.ninf => FP.ninf
  | FP.ninf, FP.pinf => FP.ninf
  | FP.ninf, FP.ninf => FP.pinf
  | FP.pinf, FP.fin b => if 0 < b then FP.pinf else if b < 0 then FP.ninf else FP.nan
  | FP.ninf, FP.fin b => if 0 < b then FP.ninf else if b < 0 then FP.pinf else FP.nan
  | FP.fin a, FP.pinf => if 0 < a then FP.pinf else if a < 0 then FP.ninf else FP.nan
  | FP.fin a, FP.ninf => if 0 < a then FP.ninf else if a < 0 then FP.pinf else FP.nan
  | FP.fin a, FP.fin b => FP.fin (a * b)

/-- IEEE division of an `FP` value by a positive integer count. -/
noncomputable def FP.divNat : FP → ℕ → FP
  | FP.nan, _ => FP.nan
  | FP.ninf, _ => FP.ninf
  | FP.pinf, _ => FP.pinf
  | FP.fin a, n => FP.fin (a / (n : ℝ))

/-- IEEE comparison on `FP`: any comparison against `NaN` is false. -/
noncomputable def FP.lt : FP → FP → Bool
  | FP.nan, _ => false
  | _, FP.nan => false
  | FP.ninf, FP.ninf => false
  | FP.ninf, _ => true
  | _, FP.ninf => false
  | FP.pinf, _ => false
  | FP.fin _, FP.pinf => true
  | FP.fin a, FP.fin b => decide (a < b)

/-- The incremental sufficient-statistics update at the floating-point
level: same formulas as `compute_component_suffstats`, with IEEE
propagation of special values. -/
noncomputable def compute_component_suffstats_FP (d : ℕ) (x mean : Fin d → FP)
    (S : Fin d → Fin d → FP) (N : ℕ) : (Fin d → FP) × (Fin d → Fin d → FP) :=
  let newMean := fun i => FP.add (mean i) (FP.divNat (FP.sub (x i) (mean i)) (N + 1))
  let newS := fun i j =>
    FP.add (S i j) (FP.mul (FP.sub (x i) (mean i)) (FP.sub (x j) (newMean j)))
  (newMean, newS)

/-- A cluster at the floating-point level: the statistics may hold
`NaN`/`±inf`. -/
structure ClusterFP (d : ℕ) where
  n : ℕ
  mean : Fin d → FP
  scatter : Fin d → Fin d → FP

/-- The mixture state at the floating-point level. -/
structure MixtureStateFP (d : ℕ) where
  bounds : Fin d → ℝ × ℝ
  clusters : List (ClusterFP d)
  n_pts : ℕ
  alpha : ℝ

/-- Inclusive prefix sums of a weight list under IEEE addition. -/
def cumSumsFP (acc : FP) : List FP → List FP
  | [] => []
  | a :: rest =>
      let acc' := FP.add acc a
      acc' :: cumSumsFP acc' rest

/-- Inverse-CDF pick on a cumulative list of IEEE values: first bucket
whose cumulative weight exceeds the threshold; the last bucket is the
catch-all (in particular every comparison against a `NaN` cumulative
weight fails, falling through). -/
noncomputable def pickCumFP (T : FP) : List FP → ℕ
  | [] => 0
  | [_] => 0
  | c :: rest => if FP.lt T c then 0 else pickCumFP T rest + 1

/-- Modelled from the spec: `add_new_point` taking the natural-space
sample, at the floating-point level.  The sample is probit-transformed
(possibly to `NaN`/`±inf`), assigned by inverse-CDF sampling on the
predictive scores (`score` for existing clusters, `newScore` for the new
cluster option, both explicit parameters), and the statistics are
updated with IEEE propagation; no input is ever rejected with an
error. -/
noncomputable def add_new_point_FP (d : ℕ) (P : ProbitKernel)
    (score : ClusterFP d → (Fin d → FP) → FP) (newScore : (Fin d → FP) → FP)
    (s : MixtureStateFP d) (x : Fin d → ℝ) (u : ℝ) :
    Except FigaroError (MixtureStateFP d) :=
  let y := transform_to_probit P d s.bounds x
  let w := (s.clusters.map fun c => score c y) ++ [newScore y]
  let T := FP.mul (FP.fin u) (w.foldl FP.add (FP.fin 0))
  let idx := pickCumFP T (cumSumsFP (FP.fin 0) w)
  if h : idx < s.clusters.length then
    let c := s.clusters.get ⟨idx, h⟩
    let r := compute_component_suffstats_FP d y c.mean c.scatter c.n
    Except.ok
      { s with
        clusters := s.clusters.set idx ⟨c.n + 1, r.1, r.2⟩
        n_pts := s.n_pts + 1 }
  else
    Except.ok
      { s with
        clusters := s.clusters ++ [⟨1, y, fun _ _ => FP.fin 0⟩]
        n_pts := s.n_pts + 1 }

/-! ## Prior construction utility (spec section 6) -/

/-- Modelled from the spec: `get_priors` of `figaro/utils.py` (not in the
source tree; its documented behaviour is in `src/unnamed/part_002` and
`src/unnamed/part_000`).  Takes natural-space prior information and
returns the NIW parameters ordered `(k, Lambda, nu, mu)` as expected by
the `DPGMM`/`HDPGMM` constructor.  The expected covariance `Lambda` is
obtained in the source by a Monte-Carlo probit transformation of samples;
it is modelled here as a direct matrix argument.  If `df` is `None` or
does not satisfy `df > D + 1`, the default value `D + 2` is used silently;
if `k` is `None` the default `1e-2` is used; if `mean` is `None` the
parameter-space centre is used. -/
noncomputable def get_priors (d : ℕ) (bounds : Fin d → ℝ × ℝ) (df : Option ℤ)
    (k : Option ℝ) (mean : Option (Fin d → ℝ)) (Lam : Matrix (Fin d) (Fin d) ℝ) :
    ℝ × Matrix (Fin d) (Fin d) ℝ × ℤ × (Fin d → ℝ) :=
  let nu : ℤ :=
    match df with
    | some v => if (d : ℤ) + 1 < v then v else (d : ℤ) + 2
    | none => (d : ℤ) + 2
  (k.getD (1 / 100), Lam, nu, mean.getD fun i => ((bounds i).1 + (bounds i).2) / 2)

/-! ## Concrete states used by the witnesses -/

/-- A concrete one-dimensional empty mixture state. -/
noncomputable def emptyState1 : MixtureState 1 where
  bounds := fun _ => (0, 1)
  prior := ⟨1 / 100, 1, 3, fun _ => 0⟩
  clusters := []
  n_pts := 0
  alpha := 1
  alpha0 := 1

/-- A concrete one-dimensional mixture state holding one cluster with one
point. -/
noncomputable def oneClusterState1 : MixtureState 1 where
  bounds := fun _ => (0, 1)
  prior := ⟨1 / 100, 1, 3, fun _ => 0⟩
  clusters := [⟨1, fun _ => 0, 0⟩]
  n_pts := 1
  alpha := 1
  alpha0 := 1

/-- A concrete one-dimensional empty floating-point-level mixture state
with bounds `(0, 2)`. -/
def emptyStateFP1 : MixtureStateFP 1 where
  bounds := fun _ => (0, 2)
  clusters := []
  n_pts := 0
  alpha := 1

section SuffstatsProofs

variable {d : ℕ} (x : ℕ → Fin d → ℝ) (p_mu : Fin d → ℝ) (p_k : ℝ) (p_nu : ℤ)
variable (p_L : Matrix (Fin d) (Fin d) ℝ)

lemma suffstatsIter_fst (n : ℕ) :
    (suffstatsIter d x p_mu p_k p_nu p_L n).1 =
      fun i => (∑ k ∈ Finset.range n, x k i) / (n : ℝ) := by
  induction n with
  | zero => funext i; simp [suffstatsIter]
  | succ n ih =>
      funext i
      rw [suffstatsIter]
      simp only [compute_component_suffstats, ih, Finset.sum_range_succ]
      rcases Nat.eq_zero_or_pos n with hn | hn
      · subst hn; simp
      · have h1 : (n : ℝ) ≠ 0 := Nat.cast_ne_zero.mpr hn.ne'
        have h2 : ((n : ℝ) + 1) ≠ 0 := by positivity
        push_cast
        field_simp
        try ring

lemma suffstatsIter_snd (n : ℕ) (i j : Fin d) :
    (suffstatsIter d x p_mu p_k p_nu p_L n).2 i j =
      (∑ k ∈ Finset.range n, x k i * x k j) -
        (∑ k ∈ Finset.range n, x k i) * (∑ k ∈ Finset.range n, x k j) / (n : ℝ) := by
  induction n with
  | zero => simp [suffstatsIter]
  | succ n ih =>
      rw [suffstatsIter]
      simp only [compute_component_suffstats, Matrix.of_apply, ih,
        suffstatsIter_fst x p_mu p_k p_nu p_L, Finset.sum_range_succ]
      rcases Nat.eq_zero_or_pos n with hn | hn
      · subst hn; simp; try ring
      · have h1 : (n : ℝ) ≠ 0 := Nat.cast_ne_zero.mpr hn.ne'
        have h2 : ((n : ℝ) + 1) ≠ 0 := by positivity
        push_cast
        field_simp
        try ring

lemma batchScatter_eq (n : ℕ) (i j : Fin d) :
    batchScatter d x n i j =
      (∑ k ∈ Finset.range n, x k i * x k j) -
        (∑ k ∈ Finset.range n, x k i) * (∑ k ∈ Finset.range n, x k j) / (n : ℝ) := by
  rcases Nat.eq_zero_or_pos n with hn | hn
  · subst hn; simp [batchScatter]
  · have h1 : (n : ℝ) ≠ 0 := Nat.cast_ne_zero.mpr hn.ne'
    simp only [batchScatter, batchMean, Matrix.of_apply]
    have expand : ∀ k, (x k i - (∑ m ∈ Finset.range n, x m i) / (n : ℝ)) *
        (x k j - (∑ m ∈ Finset.range n, x m j) / (n : ℝ)) =
        x k i * x k j
          - x k i * ((∑ m ∈ Finset.range n, x m j) / (n : ℝ))
          - ((∑ m ∈ Finset.range n, x m i) / (n : ℝ)) * x k j
          + ((∑ m ∈ Finset.range n, x m i) / (n : ℝ)) *
              ((∑ m ∈ Finset.range n, x m j) / (n : ℝ)) := by
      intro k; ring
    rw [Finset.sum_congr rfl fun k _ => expand k]
    simp only [Finset.sum_add_distrib, Finset.sum_sub_distrib, ← Finset.sum_mul,
      ← Finset.mul_sum, Finset.sum_const, Finset.card_range, nsmul_eq_mul]
    field_simp
    try ring

end SuffstatsProofs

/-- Claim C1: for every cluster and every sequence of `n` points assigned to
it, the running mean and scatter matrix maintained by the incremental
update of `compute_component_suffstats` are equal to the batch mean and
scatter matrix recomputed from scratch over the same `n` points (exactly,
in the exact-arithmetic model of floating point, i.e. up to rounding in
the implementation). -/
theorem compute_component_suffstats_batch_equiv (d : ℕ) (x : ℕ → Fin d → ℝ)
    (p_mu : Fin d → ℝ) (p_k : ℝ) (p_nu : ℤ) (p_L : Matrix (Fin d) (Fin d) ℝ) (n : ℕ) :
    suffstatsIter d x p_mu p_k p_nu p_L n = (batchMean d x n, batchScatter d x n) := by
  refine Prod.ext ?_ ?_
  · rw [suffstatsIter_fst]
    rfl
  · funext i j
    show (suffstatsIter d x p_mu p_k p_nu p_L n).2 i j = batchScatter d x n i j
    rw [suffstatsIter_snd, batchScatter_eq]

section ProbitProofs

lemma probitCoord_interior (P : ProbitKernel) (lo hi x : ℝ) (hlh : lo < hi)
    (h1 : lo < x) (h2 : x < hi) :
    probitCoord P lo hi x = FP.fin (P.PhiInv ((x - lo) / (hi - lo))) ∧
      (x - lo) / (hi - lo) ∈ Set.Ioo (0 : ℝ) 1 := by
  have hd : 0 < hi - lo := by linarith
  have hr0 : 0 < (x - lo) / (hi - lo) := div_pos (by linarith) hd
  have hr1 : (x - lo) / (hi - lo) < 1 := (div_lt_one hd).mpr (by linarith)
  have c1 : ¬((x - lo) / (hi - lo) < 0 ∨ 1 < (x - lo) / (hi - lo)) := by
    push_neg
    exact ⟨le_of_lt hr0, le_of_lt hr1⟩
  refine ⟨?_, hr0, hr1⟩
  simp [probitCoord, ndtriFP, c1, hr0.ne', hr1.ne]

lemma probitCoord_left (P : ProbitKernel) (lo hi : ℝ) (hlh : lo < hi) :
    probitCoord P lo hi lo = FP.ninf := by
  simp [probitCoord, ndtriFP]

lemma probitCoord_right (P : ProbitKernel) (lo hi : ℝ) (hlh : lo < hi) :
    probitCoord P lo hi hi = FP.pinf := by
  have hd : hi - lo ≠ 0 := by linarith
  simp [probitCoord, ndtriFP, div_self hd]

lemma antiprobitCoord_ninf (P : ProbitKernel) (lo hi : ℝ) :
    antiprobitCoord P lo hi FP.ninf = FP.fin lo := by
  simp [antiprobitCoord, ndtrFP]

lemma antiprobitCoord_pinf (P : ProbitKernel) (lo hi : ℝ) :
    antiprobitCoord P lo hi FP.pinf = FP.fin hi := by
  simp only [antiprobitCoord, ndtrFP, mul_one]
  congr 1
  ring

lemma antiprobit_probit_coord (P : ProbitKernel) (lo hi x : ℝ) (hlh : lo < hi)
    (h1 : lo < x) (h2 : x < hi) :
    antiprobitCoord P lo hi (probitCoord P lo hi x) = FP.fin x := by
  obtain ⟨heq, hmem⟩ := probitCoord_interior P lo hi x hlh h1 h2
  rw [heq]
  simp only [antiprobitCoord, ndtrFP]
  rw [P.phi_phiInv _ hmem]
  congr 1
  have hd : hi - lo ≠ 0 := by linarith
  field_simp

end ProbitProofs

/-- Claim C2: for every valid bounds pair (`min < max` in each dimension)
and every point `x` strictly inside the bounds,
`transform_from_probit (transform_to_probit x)` equals `x` (exactly, in
the exact-arithmetic model); moreover `transform_to_probit` maps a
coordinate exactly at `min` to `-inf` and exactly at `max` to `+inf`, and
`transform_from_probit` maps `-inf` and `+inf` exactly back to `min` and
`max`. -/
theorem transform_probit_roundtrip (P : ProbitKernel) (d : ℕ) (bounds : Fin d → ℝ × ℝ)
    (x : Fin d → ℝ) (hb : ∀ i, (bounds i).1 < (bounds i).2)
    (hx : ∀ i, (bounds i).1 < x i ∧ x i < (bounds i).2) :
    (∀ i, transform_from_probit P d bounds (transform_to_probit P d bounds x) i
        = FP.fin (x i)) ∧
    (∀ i, transform_to_probit P d bounds (fun j => (bounds j).1) i = FP.ninf) ∧
    (∀ i, transform_to_probit P d bounds (fun j => (bounds j).2) i = FP.pinf) ∧
    (∀ i, transform_from_probit P d bounds (fun _ => FP.ninf) i = FP.fin (bounds i).1) ∧
    (∀ i, transform_from_probit P d bounds (fun _ => FP.pinf) i = FP.fin (bounds i).2) := by
  refine ⟨?_, ?_, ?_, ?_, ?_⟩
  · intro i
    exact antiprobit_probit_coord P (bounds i).1 (bounds i).2 (x i) (hb i) (hx i).1 (hx i).2
  · intro i
    exact probitCoord_left P (bounds i).1 (bounds i).2 (hb i)
  · intro i
    exact probitCoord_right P (bounds i).1 (bounds i).2 (hb i)
  · intro i
    exact antiprobitCoord_ninf P (bounds i).1 (bounds i).2
  · intro i
    exact antiprobitCoord_pinf P (bounds i).1 (bounds i).2

/-- Witness for C2: the round trip and the boundary behaviour at the
concrete bounds `(1, 3)` (the bounds used by the transform test
notebook) and the interior point `x = 2`, with the logistic kernel. -/
theorem transform_probit_roundtrip_witness :
    transform_from_probit logisticKernel 1 (fun _ => (1, 3))
        (transform_to_probit logisticKernel 1 (fun _ => (1, 3)) (fun _ => 2)) 0
      = FP.fin 2 ∧
    transform_to_probit logisticKernel 1 (fun _ => (1, 3)) (fun j => (1 : ℝ)) 0 = FP.ninf ∧
    transform_from_probit logisticKernel 1 (fun _ => (1, 3)) (fun _ => FP.pinf) 0
      = FP.fin 3 := by
  have h := transform_probit_roundtrip logisticKernel 1 (fun _ => ((1 : ℝ), (3 : ℝ)))
    (fun _ => (2 : ℝ)) (fun _ => by norm_num) (fun _ => by norm_num)
  exact ⟨h.1 0, h.2.1 0, h.2.2.2.2 0⟩

section EngineProofs

/-- On an empty state the assignment has a single option (the new
cluster), so the categorical draw is deterministic whatever the uniform
draw. -/
lemma assignChoice_empty (d : ℕ) (s : MixtureState d) (y : Fin d → ℝ) (u : ℝ)
    (hc : s.clusters = []) : assignChoice d s y u = 0 := by
  simp [assignChoice, assignmentLogScores, hc, categoricalPick]

/-- Adding a point to an empty state appends a fresh cluster with `n = 1`,
mean equal to the point and zero scatter, independently of the uniform
draw. -/
lemma add_new_point_empty (d : ℕ) (s : MixtureState d) (y : Fin d → ℝ) (u : ℝ)
    (hc : s.clusters = []) :
    add_new_point d s y u =
      { s with clusters := [⟨1, y, 0⟩], n_pts := s.n_pts + 1 } := by
  rw [add_new_point]
  rw [dif_neg]
  · simp [hc]
  · rw [assignChoice_empty d s y u hc, hc]
    simp

end EngineProofs

/-- Claim C5: for every empty `MixtureState` (no clusters, `N = 0`), the
first call to `add_new_point` deterministically (independently of the
random draw `u`) creates exactly one cluster, with count `n = 1`, mean
seeded from the (probit-transformed) point and zero scatter. -/
theorem add_new_point_first_point (d : ℕ) (s : MixtureState d) (y : Fin d → ℝ) (u : ℝ)
    (hc : s.clusters = []) (hn : s.n_pts = 0) :
    add_new_point d s y u = { s with clusters := [⟨1, y, 0⟩], n_pts := 1 } := by
  rw [add_new_point_empty d s y u hc, hn]

/-- Witness for C5: the first point added to the concrete empty
one-dimensional state. -/
theorem add_new_point_first_point_witness :
    add_new_point 1 emptyState1 (fun _ => 0) (1 / 2) =
      { emptyState1 with clusters := [⟨1, fun _ => 0, 0⟩], n_pts := 1 } :=
  add_new_point_first_point 1 emptyState1 (fun _ => 0) (1 / 2) rfl rfl

/-- Claim C6: calling `add_new_point` or `build_mixture` on a state in the
EMPTY state (freshly created or just reset by `initialise`, which always
produces an empty state) is valid and does not fail: `add_new_point`
starts accumulation with the first point and neither call returns an
error on a valid session. -/
theorem empty_state_operations_valid (d : ℕ) (se : Session d) (y : Fin d → ℝ) (u : ℝ)
    (hv : se.valid = true) (hc : se.state.clusters = []) :
    Session.addPoint d se y u =
        Except.ok
          ⟨{ se.state with clusters := [⟨1, y, 0⟩], n_pts := se.state.n_pts + 1 }, true⟩ ∧
    Session.buildMixture d se = Except.ok (build_mixture d se.state) ∧
    (∀ e, Session.addPoint d se y u ≠ Except.error e) ∧
    (∀ e, Session.buildMixture d se ≠ Except.error e) ∧
    (∀ t : MixtureState d, (initialise d t).clusters = [] ∧ (initialise d t).n_pts = 0) := by
  have h1 : Session.addPoint d se y u =
      Except.ok
        ⟨{ se.state with clusters := [⟨1, y, 0⟩], n_pts := se.state.n_pts + 1 }, true⟩ := by
    rw [Session.addPoint, if_pos hv, add_new_point_empty d se.state y u hc]
  have h2 : Session.buildMixture d se = Except.ok (build_mixture d se.state) := by
    rw [Session.buildMixture, if_pos hv]
  refine ⟨h1, h2, ?_, ?_, ?_⟩
  · intro e he
    rw [h1] at he
    exact Except.noConfusion he
  · intro e he
    rw [h2] at he
    exact Except.noConfusion he
  · intro t
    exact ⟨rfl, rfl⟩

/-- Witness for C6: both operations on a valid session holding the
concrete empty one-dimensional state. -/
theorem empty_state_operations_valid_witness :
    Session.addPoint 1 ⟨emptyState1, true⟩ (fun _ => 0) (1 / 2) =
        Except.ok
          ⟨{ emptyState1 with clusters := [⟨1, fun _ => 0, 0⟩], n_pts := 1 }, true⟩ ∧
    Session.buildMixture 1 ⟨emptyState1, true⟩ = Except.ok (build_mixture 1 emptyState1) := by
  have h := empty_state_operations_valid 1 ⟨emptyState1, true⟩ (fun _ => 0) (1 / 2) rfl rfl
  exact ⟨h.1, h.2.1⟩

/-- Claim C8: `build_mixture` never mutates the state it snapshots: running
any interleaving of accumulation steps and (read-only) `build` snapshots
produces exactly the state that the accumulation steps alone would
produce, so `build_mixture` may be called repeatedly against the same
accumulating state; in particular a single snapshot leaves the state
unchanged. -/
theorem build_mixture_read_only (d : ℕ) (s : MixtureState d) (ops : List (SessionOp d)) :
    (runOps d s ops).1 =
        List.foldl (fun t p => add_new_point d t p.1 p.2) s (ops.filterMap (opPoint d)) ∧
    (runOps d s (SessionOp.build :: ops)).1 = (runOps d s ops).1 := by
  constructor
  · induction ops generalizing s with
    | nil => simp [runOps]
    | cons op rest ih =>
        cases op with
        | addPoint y u => simpa [runOps, opPoint] using ih (add_new_point d s y u)
        | build => simpa [runOps, opPoint] using ih s
  · rfl

section BuilderProofs

/-- The weight list of a built mixture is the cluster-count list divided
by `N + alpha`. -/
lemma build_mixture_weight_map (d : ℕ) (s : MixtureState d) :
    (build_mixture d s).components.map MixComponent.w =
      s.clusters.map fun c => (c.n : ℝ) / ((s.n_pts : ℝ) + s.alpha) := by
  simp only [build_mixture, List.map_map]
  rfl

/-- Summing counts divided by a common denominator. -/
lemma sum_map_count_div {d : ℕ} (l : List (Cluster d)) (t : ℝ) :
    (l.map fun c => (c.n : ℝ) / t).sum = (((l.map Cluster.n).sum : ℕ) : ℝ) / t := by
  induction l with
  | nil => simp
  | cons c rest ih =>
      simp only [List.map_cons, List.sum_cons, ih]
      push_cast
      rw [add_div]

end BuilderProofs

/-- Claim C3 counterexample: on the concrete reachable state with one
cluster of count 1, total count `N = 1` and concentration `alpha = 1`,
the component weights of the built `Draw` sum to `1/2`, not to `1`
(within no reasonable tolerance): with each weight equal to
`n_k/(N + alpha)` the weights sum to `N/(N + alpha)`, which is not 1. -/
theorem build_mixture_weights_sum_counterexample :
    ((build_mixture 1 oneClusterState1).components.map MixComponent.w).sum = 1 / 2 ∧
    ((build_mixture 1 oneClusterState1).components.map MixComponent.w).sum ≠ 1 := by
  have h : ((build_mixture 1 oneClusterState1).components.map MixComponent.w).sum = 1 / 2 := by
    rw [build_mixture_weight_map]
    simp [oneClusterState1]
    norm_num
  refine ⟨h, ?_⟩
  rw [h]
  norm_num

/-- Claim C3 (amended): for every `Draw` produced by `build_mixture` from a
`MixtureState` with clusters of counts `n_k`, total count `N` and
concentration `alpha > 0`, each component's weight equals
`n_k / (N + alpha)`, and the component weights of the `Draw` sum to
`N / (N + alpha)` (approaching 1 only as `N` grows; they do not sum
to 1). -/
theorem build_mixture_weights (d : ℕ) (s : MixtureState d)
    (hN : (s.clusters.map Cluster.n).sum = s.n_pts) (ha : 0 < s.alpha) :
    (build_mixture d s).components.map MixComponent.w =
        (s.clusters.map fun c => (c.n : ℝ) / ((s.n_pts : ℝ) + s.alpha)) ∧
    ((build_mixture d s).components.map MixComponent.w).sum =
        (s.n_pts : ℝ) / ((s.n_pts : ℝ) + s.alpha) := by
  refine ⟨build_mixture_weight_map d s, ?_⟩
  rw [build_mixture_weight_map, sum_map_count_div, hN]

/-- Witness for the amended C3 on the concrete one-cluster state. -/
theorem build_mixture_weights_witness :
    ((build_mixture 1 oneClusterState1).components.map MixComponent.w).sum =
      (oneClusterState1.n_pts : ℝ) / ((oneClusterState1.n_pts : ℝ) + oneClusterState1.alpha) :=
  (build_mixture_weights 1 oneClusterState1 (by simp [oneClusterState1]) (by
    simp only [oneClusterState1]
    norm_num)).2

/-- Claim C4: every call to `update_alpha` performs exactly one
Metropolis-Hastings step and returns exactly one new alpha value: the
proposed value exactly when it is positive and `log u` is below the
log-ratio of the unnormalised target `p(alpha | K, n)` at the proposed
versus the current alpha, and the current value otherwise; in particular
the returned value is always strictly positive when the current alpha
is. -/
theorem update_alpha_single_step (a : ℝ) (n K : ℕ) (prop u : ℝ) (ha : 0 < a) :
    0 < update_alpha a n K prop u ∧
    ((0 < a + prop ∧
        Real.log u < log_alpha_probability K n (a + prop) - log_alpha_probability K n a) →
      update_alpha a n K prop u = a + prop) ∧
    (¬(0 < a + prop ∧
        Real.log u < log_alpha_probability K n (a + prop) - log_alpha_probability K n a) →
      update_alpha a n K prop u = a) := by
  by_cases h : 0 < a + prop ∧
      Real.log u < log_alpha_probability K n (a + prop) - log_alpha_probability K n a
  · have heq : update_alpha a n K prop u = a + prop := by
      rw [update_alpha, if_pos h]
    exact ⟨by rw [heq]; exact h.1, fun _ => heq, fun hc => absurd h hc⟩
  · have heq : update_alpha a n K prop u = a := by
      rw [update_alpha, if_neg h]
    exact ⟨by rw [heq]; exact ha, fun hc => absurd hc h, fun _ => heq⟩

/-- Witness for C4 at the parameters exercised by the test notebook
(`alpha = 1`, `n = 300`, `K = 20`). -/
theorem update_alpha_single_step_witness :
    0 < update_alpha 1 300 20 (1 / 2) (1 / 2) :=
  (update_alpha_single_step 1 300 20 (1 / 2) (1 / 2) (by norm_num)).1

/-- Claim C9: constructing a `MixtureState` via
`new(bounds, prior_pars, alpha0)` with valid bounds and a prior tuple
whose degrees-of-freedom parameter satisfies `nu0 <= D + 1` fails with
the `invalidPrior` error; it does not silently proceed with the supplied
or a substituted value. -/
theorem DPGMM_new_invalid_prior (d : ℕ) (bounds : Fin d → ℝ × ℝ)
    (k0 : ℝ) (L0 : Matrix (Fin d) (Fin d) ℝ) (nu0 : ℤ) (mu0 : Fin d → ℝ) (alpha0 : ℝ)
    (hb : ∀ i, (bounds i).1 < (bounds i).2) (hnu : nu0 ≤ (d : ℤ) + 1) :
    DPGMM_new d bounds (some (k0, L0, nu0, mu0)) alpha0 =
      Except.error FigaroError.invalidPrior := by
  have hbnot : ¬∃ i, (bounds i).2 ≤ (bounds i).1 := by
    push_neg
    exact hb
  rw [DPGMM_new, if_neg hbnot]
  simp only [if_pos hnu]

/-- Witness for C9: a one-dimensional construction with `nu0 = 2 <= 2`. -/
theorem DPGMM_new_invalid_prior_witness :
    DPGMM_new 1 (fun _ => (0, 1)) (some (1, 1, 2, fun _ => 0)) 1 =
      Except.error FigaroError.invalidPrior :=
  DPGMM_new_invalid_prior 1 (fun _ => (0, 1)) 1 1 2 (fun _ => 0) 1
    (fun _ => by norm_num) (by norm_num)

/-- A well-formed prior tuple is accepted by the constructor. -/
lemma DPGMM_new_accepts (d : ℕ) (bounds : Fin d → ℝ × ℝ)
    (k0 : ℝ) (L0 : Matrix (Fin d) (Fin d) ℝ) (nu0 : ℤ) (mu0 : Fin d → ℝ) (alpha0 : ℝ)
    (hb : ∀ i, (bounds i).1 < (bounds i).2) (hnu : (d : ℤ) + 1 < nu0) (hk : 0 < k0) :
    DPGMM_new d bounds (some (k0, L0, nu0, mu0)) alpha0 =
      Except.ok
        { bounds := bounds
          prior := ⟨k0, L0, nu0, mu0⟩
          clusters := []
          n_pts := 0
          alpha := alpha0
          alpha0 := alpha0 } := by
  have hbnot : ¬∃ i, (bounds i).2 ≤ (bounds i).1 := by
    push_neg
    exact hb
  rw [DPGMM_new, if_neg hbnot]
  simp only [if_neg (not_le.mpr hnu), if_neg (not_le.mpr hk)]

/-- Claim C10: for every bounds array and every `df` argument, `get_priors`
never fails because of `df`: the returned degrees-of-freedom always
exceeds `D + 1`; if `df` is `None` or does not satisfy `df > D + 1` it is
silently replaced by the default `D + 2`; the returned tuple is ordered
`(k, Lambda, nu, mu)`; and the result can be passed directly to the
`DPGMM`/`HDPGMM` constructor, which accepts it. -/
theorem get_priors_df_default (d : ℕ) (bounds : Fin d → ℝ × ℝ) (df : Option ℤ)
    (Lam : Matrix (Fin d) (Fin d) ℝ) (hb : ∀ i, (bounds i).1 < (bounds i).2) :
    (d : ℤ) + 1 < (get_priors d bounds df none none Lam).2.2.1 ∧
    (∀ v, df = some v → ¬((d : ℤ) + 1 < v) →
      (get_priors d bounds df none none Lam).2.2.1 = (d : ℤ) + 2) ∧
    (df = none → (get_priors d bounds df none none Lam).2.2.1 = (d : ℤ) + 2) ∧
    (get_priors d bounds df none none Lam) =
      (1 / 100, Lam, (get_priors d bounds df none none Lam).2.2.1,
        fun i => ((bounds i).1 + (bounds i).2) / 2) ∧
    (∀ alpha0 : ℝ, ∃ st,
      DPGMM_new d bounds (some (get_priors d bounds df none none Lam)) alpha0
        = Except.ok st) := by
  have hnu : (d : ℤ) + 1 < (get_priors d bounds df none none Lam).2.2.1 := by
    cases df with
    | none => simp [get_priors]
    | some v =>
        by_cases hv : (d : ℤ) + 1 < v
        · simp [get_priors, hv]
        · simp [get_priors, hv]
  refine ⟨hnu, ?_, ?_, ?_, ?_⟩
  · intro v hdf hv
    subst hdf
    simp [get_priors, hv]
  · intro hdf
    subst hdf
    simp [get_priors]
  · rfl
  · intro alpha0
    have hk : 0 < (get_priors d bounds df none none Lam).1 := by
      norm_num [get_priors]
    exact ⟨_, DPGMM_new_accepts d bounds _ _ _ _ alpha0 hb hnu hk⟩

/-- Witness for C10: `df = some 1` is invalid in one dimension, so the
default `1 + 2` is returned. -/
theorem get_priors_df_default_witness :
    (get_priors 1 (fun _ => (0, 1)) (some 1) none none 1).2.2.1 = (1 : ℤ) + 2 := by
  have h := get_priors_df_default 1 (fun _ => (0, 1)) (some 1) 1 (fun _ => by norm_num)
  have h2 := h.2.1 1 rfl (by norm_num)
  simpa using h2

section SilentFailureProofs

lemma probitCoord_below (P : ProbitKernel) (lo hi x : ℝ) (hlh : lo < hi) (hx : x < lo) :
    probitCoord P lo hi x = FP.nan := by
  have hr : (x - lo) / (hi - lo) < 0 := div_neg_of_neg_of_pos (by linarith) (by linarith)
  simp [probitCoord, ndtriFP, hr]

lemma probitCoord_above (P : ProbitKernel) (lo hi x : ℝ) (hlh : lo < hi) (hx : hi < x) :
    probitCoord P lo hi x = FP.nan := by
  have hr : 1 < (x - lo) / (hi - lo) := (one_lt_div (by linarith)).mpr (by linarith)
  simp [probitCoord, ndtriFP, hr]

lemma add_new_point_FP_total (d : ℕ) (P : ProbitKernel)
    (score : ClusterFP d → (Fin d → FP) → FP) (newScore : (Fin d → FP) → FP)
    (s : MixtureStateFP d) (x : Fin d → ℝ) (u : ℝ) :
    ∃ s', add_new_point_FP d P score newScore s x u = Except.ok s' := by
  rw [add_new_point_FP]
  split
  · exact ⟨_, rfl⟩
  · exact ⟨_, rfl⟩

lemma add_new_point_FP_empty (d : ℕ) (P : ProbitKernel)
    (score : ClusterFP d → (Fin d → FP) → FP) (newScore : (Fin d → FP) → FP)
    (s : MixtureStateFP d) (x : Fin d → ℝ) (u : ℝ) (hc : s.clusters = []) :
    add_new_point_FP d P score newScore s x u =
      Except.ok
        { s with
          clusters := [⟨1, transform_to_probit P d s.bounds x, fun _ _ => FP.fin 0⟩]
          n_pts := s.n_pts + 1 } := by
  rw [add_new_point_FP]
  rw [dif_neg]
  · simp [hc]
  · rw [hc]
    simp [cumSumsFP, pickCumFP]

end SilentFailureProofs

/-- Claim C7: for every sample on or outside the configured bounds, neither
`transform_to_probit` nor `add_new_point` raises an error: a coordinate
strictly outside the bounds is propagated as `NaN` and a coordinate
exactly on a bound as `-inf`/`+inf` through the probit transform, the
accumulation step always succeeds (for every state and every
predictive-score computation), and on the empty state the propagated
values are seeded directly into the new cluster's statistics — the
deliberate silent-failure policy. -/
theorem out_of_bounds_silent_propagation (d : ℕ) (P : ProbitKernel)
    (score : ClusterFP d → (Fin d → FP) → FP) (newScore : (Fin d → FP) → FP)
    (s : MixtureStateFP d) (x : Fin d → ℝ) (u : ℝ)
    (hb : ∀ i, (s.bounds i).1 < (s.bounds i).2) :
    (∀ i, x i < (s.bounds i).1 → transform_to_probit P d s.bounds x i = FP.nan) ∧
    (∀ i, (s.bounds i).2 < x i → transform_to_probit P d s.bounds x i = FP.nan) ∧
    (∀ i, x i = (s.bounds i).1 → transform_to_probit P d s.bounds x i = FP.ninf) ∧
    (∀ i, x i = (s.bounds i).2 → transform_to_probit P d s.bounds x i = FP.pinf) ∧
    (∃ s', add_new_point_FP d P score newScore s x u = Except.ok s') ∧
    (s.clusters = [] →
      add_new_point_FP d P score newScore s x u =
        Except.ok
          { s with
            clusters := [⟨1, transform_to_probit P d s.bounds x, fun _ _ => FP.fin 0⟩]
            n_pts := s.n_pts + 1 }) := by
  refine ⟨?_, ?_, ?_, ?_, ?_, ?_⟩
  · intro i hi
    exact probitCoord_below P (s.bounds i).1 (s.bounds i).2 (x i) (hb i) hi
  · intro i hi
    exact probitCoord_above P (s.bounds i).1 (s.bounds i).2 (x i) (hb i) hi
  · intro i hi
    show probitCoord P (s.bounds i).1 (s.bounds i).2 (x i) = FP.ninf
    rw [hi]
    exact probitCoord_left P (s.bounds i).1 (s.bounds i).2 (hb i)
  · intro i hi
    show probitCoord P (s.bounds i).1 (s.bounds i).2 (x i) = FP.pinf
    rw [hi]
    exact probitCoord_right P (s.bounds i).1 (s.bounds i).2 (hb i)
  · exact add_new_point_FP_total d P score newScore s x u
  · intro hc
    exact add_new_point_FP_empty d P score newScore s x u hc

/-- Witness for C7: the out-of-bounds sample `x = 3` against bounds
`(0, 2)` becomes `NaN` and is absorbed without error into the first
cluster of the concrete empty floating-point state. -/
theorem out_of_bounds_silent_propagation_witness :
    transform_to_probit logisticKernel 1 emptyStateFP1.bounds (fun _ => 3) 0 = FP.nan ∧
    add_new_point_FP 1 logisticKernel (fun _ _ => FP.nan) (fun _ => FP.nan) emptyStateFP1
        (fun _ => 3) (1 / 2) =
      Except.ok
        { emptyStateFP1 with
          clusters :=
            [⟨1, transform_to_probit logisticKernel 1 emptyStateFP1.bounds (fun _ => 3),
              fun _ _ => FP.fin 0⟩]
          n_pts := 1 } := by
  have h := out_of_bounds_silent_propagation 1 logisticKernel (fun _ _ => FP.nan)
    (fun _ => FP.nan) emptyStateFP1 (fun _ => 3) (1 / 2) (fun _ => by norm_num [emptyStateFP1])
  exact ⟨h.2.1 0 (by norm_num [emptyStateFP1]), h.2.2.2.2.2 rfl⟩

end Figaro
